import Mathlib

/-!
Verification development for the radio-scrap auto-collect preview-and-dedup
pipeline.  The definitions below are a shallow embedding of the TypeScript
source: the data model of `lib/types.ts`, the `combineArticles` merge/sort of
the scrape page, the per-article progress fold of
`components/scrape/scrape-progress-modal.tsx`, the SSE subscription of
`lib/hooks/use-sse.ts`, and the `handleAutoCollectPreview` handler.
JavaScript `Map` values are modelled as functions `String → Option _`,
machine numbers as `Nat`/`Int`, optional fields as `Option`, and JS
truthiness of optional strings is modelled explicitly (absent or empty
strings are falsy).
-/

namespace RadioScrap

/-- Per-step status of one article in the progress modal
(`ArticleStepStatus` in `lib/types.ts`). -/
inductive ArticleStepStatus
  | pending
  | processing
  | completed
  | error
  deriving DecidableEq, Repr

/-- Overall status of one article (`ArticleProgressState.overallStatus`). -/
inductive OverallStatus
  | pending
  | processing
  | completed
  | skipped
  | error
  deriving DecidableEq, Repr

/-- Status carried by a `ScrapeProgressEvent` (`lib/types.ts`). -/
inductive EventStatus
  | processing
  | success
  | error
  | completed
  | failed
  | skipped
  deriving DecidableEq, Repr

/-- Step tag carried by a `ScrapeProgressEvent` (`lib/types.ts`). -/
inductive EventStep
  | scraped
  | extracting
  | extracted
  | translating
  deriving DecidableEq, Repr

/-- `ArticlePreview` of `lib/types.ts`: a candidate article returned by the
preview endpoint.  The preview aggregator sets `is_duplicate` on every
returned article, so it is modelled as a `Bool`. -/
structure ArticlePreview where
  title : String
  url : String
  published_date : Option String := none
  source : String
  snippet : Option String := none
  document_type : Option String := none
  matched_keywords : Option (List String) := none
  is_duplicate : Bool := false
  deriving DecidableEq, Repr

/-- An `ArticlePreview & \x7b sourceId: string \x7d` as produced by
`combineArticles`. -/
structure CombinedArticle extends ArticlePreview where
  sourceId : String
  deriving DecidableEq, Repr

/-- The `data` field of `AutoCollectPreviewResponse` (`lib/types.ts`):
optional per-source lists. -/
structure AutoCollectData where
  fcc : Option (List ArticlePreview) := none
  ofcom : Option (List ArticlePreview) := none
  soumu : Option (List ArticlePreview) := none
  deriving Repr

/-- `AutoCollectPreviewResponse` of `lib/types.ts`. -/
structure AutoCollectPreviewResponse where
  data : AutoCollectData
  warnings : List String
  total_count : Nat
  deriving Repr

/-- `AutoCollectRequest` of `lib/types.ts`. -/
structure AutoCollectRequest where
  sources : List String
  date_range : String
  deriving DecidableEq, Repr

/-- JavaScript truthiness of an optional string: `undefined` and the empty
string are falsy. -/
def truthyStr : Option String → Bool
  | none => false
  | some s => !(s == "")

/-- Model of `String.prototype.localeCompare` on the date strings compared in
`combineArticles`: negative when `x` orders before `y`, zero on equality,
positive otherwise. -/
def localeCompare (x y : String) : Int :=
  if x < y then -1 else if x = y then 0 else 1

/-- The comparator passed to `.sort()` inside `combineArticles`
(src/unnamed/part_004, lines 176-185): duplicates sink to the end, then
dates descending, items with a falsy `published_date` after dated items. -/
def cmpArticles (a b : CombinedArticle) : Int :=
  if a.is_duplicate ≠ b.is_duplicate then
    (if a.is_duplicate then 1 else -1)
  else if !(truthyStr a.published_date) then 1
  else if !(truthyStr b.published_date) then -1
  else localeCompare (b.published_date.getD "") (a.published_date.getD "")

/-- Insert one element into a list according to `cmpArticles`; building block
of the model of `Array.prototype.sort`. -/
def insertArticle (x : CombinedArticle) : List CombinedArticle → List CombinedArticle
  | [] => [x]
  | y :: ys => if cmpArticles x y < 0 then x :: y :: ys else y :: insertArticle x ys

/-- Model of `combined.sort(comparator)`: a deterministic comparison sort
using the source's comparator. -/
def sortArticles (l : List CombinedArticle) : List CombinedArticle :=
  l.foldr insertArticle []

/-- Tag every article of one source list with its `sourceId`, as the spreads
in `combineArticles` do. -/
def tagSource (sid : String) (l : Option (List ArticlePreview)) : List CombinedArticle :=
  match l with
  | none => []
  | some articles => articles.map (fun a => { toArticlePreview := a, sourceId := sid })

/-- The concatenated, source-tagged input list built by `combineArticles`
before sorting (fcc, then ofcom, then soumu). -/
def combinedInput (d : AutoCollectData) : List CombinedArticle :=
  tagSource "fcc" d.fcc ++ tagSource "ofcom" d.ofcom ++ tagSource "soumu" d.soumu

/-- `combineArticles` of src/unnamed/part_004 (lines 162-186): concatenate
the per-source lists with source tags and sort with the comparator. -/
def combineArticles (d : AutoCollectData) : List CombinedArticle :=
  sortArticles (combinedInput d)

/-- The ordering property claimed for the combined list, stated from the
spec: `a` may precede `b` iff no duplicate precedes a non-duplicate, and
within one partition no article with a missing date precedes a dated one and
dates are non-increasing. -/
def mayPrecede (a b : CombinedArticle) : Prop :=
  (a.is_duplicate = true → b.is_duplicate = true) ∧
  (a.is_duplicate = b.is_duplicate →
    (truthyStr a.published_date = false → truthyStr b.published_date = false) ∧
    (truthyStr a.published_date = true → truthyStr b.published_date = true →
      ¬(a.published_date.getD "" < b.published_date.getD "")))

/-- `ScrapeProgressEvent` of `lib/types.ts`. -/
structure ScrapeProgressEvent where
  processed : Nat := 0
  total : Nat := 0
  current_url : Option String := none
  article_id : Option String := none
  attachments_count : Option Nat := none
  error : Option String := none
  status : EventStatus
  step : Option EventStep := none
  skip_reason : Option String := none
  success_count : Option Nat := none
  skipped_count : Option Nat := none
  error_count : Option Nat := none
  scraped_count : Option Nat := none
  extracted_count : Option Nat := none
  translated_count : Option Nat := none
  completed_at : Option String := none
  deriving DecidableEq, Repr

/-- `ArticleProgressState` of `lib/types.ts`: the per-article view folded by
the progress modal. -/
structure ArticleProgressState where
  url : String
  title : String
  source : String
  scrapeStatus : ArticleStepStatus
  extractStatus : ArticleStepStatus
  translateStatus : ArticleStepStatus
  overallStatus : OverallStatus
  error : Option String := none
  deriving DecidableEq, Repr

/-- The modal's `Map<string, ArticleProgressState>` modelled as a function
from urls to optional states. -/
def StateMap : Type := String → Option ArticleProgressState

/-- `Map.set`. -/
def setState (m : StateMap) (u : String) (s : ArticleProgressState) : StateMap :=
  fun v => if v = u then some s else m v

/-- The empty map. -/
def emptyStateMap : StateMap := fun _ => none

/-- The per-article update performed by the modal's event loop
(scrape-progress-modal.tsx lines 178-225) on the copied state `st`:
`skipped` and `error` short-circuit, otherwise the step branch applies and a
final `success` check overwrites everything. -/
def updateArticleState (e : ScrapeProgressEvent) (st : ArticleProgressState) :
    ArticleProgressState :=
  if e.status = EventStatus.skipped then
    { st with overallStatus := OverallStatus.skipped,
              scrapeStatus := ArticleStepStatus.completed,
              extractStatus := ArticleStepStatus.completed,
              translateStatus := ArticleStepStatus.completed }
  else if e.status = EventStatus.error then
    { st with overallStatus := OverallStatus.error, error := e.error }
  else
    let st1 :=
      match e.step with
      | some EventStep.scraped =>
          { st with scrapeStatus := ArticleStepStatus.completed,
                    overallStatus := OverallStatus.processing }
      | some EventStep.extracting =>
          { st with scrapeStatus := ArticleStepStatus.completed,
                    extractStatus := ArticleStepStatus.processing,
                    overallStatus := OverallStatus.processing }
      | some EventStep.extracted =>
          { st with scrapeStatus := ArticleStepStatus.completed,
                    extractStatus := ArticleStepStatus.completed,
                    overallStatus := OverallStatus.processing }
      | some EventStep.translating =>
          { st with scrapeStatus := ArticleStepStatus.completed,
                    extractStatus := ArticleStepStatus.completed,
                    translateStatus := ArticleStepStatus.processing,
                    overallStatus := OverallStatus.processing }
      | none => st
    if e.status = EventStatus.success then
      { st1 with scrapeStatus := ArticleStepStatus.completed,
                 extractStatus := ArticleStepStatus.completed,
                 translateStatus := ArticleStepStatus.completed,
                 overallStatus := OverallStatus.completed }
    else st1

/-- One iteration of the modal's `for (const event of newEvents)` loop
(scrape-progress-modal.tsx lines 169-226): events with a falsy
`current_url` are skipped, unknown urls are skipped, otherwise the entry is
replaced by the updated copy. -/
def applyEvent (m : StateMap) (e : ScrapeProgressEvent) : StateMap :=
  match e.current_url with
  | none => m
  | some u =>
    if u = "" then m
    else
      match m u with
      | none => m
      | some existing => setState m u (updateArticleState e existing)

/-- The spec's folding-rule table (§4.7), written from the spec's words as a
reference transition on one article state: `skipped` forces all three steps
completed with overall `skipped`; `error` sets overall `error` and records
the message; `success` sets all three steps completed with overall
`completed`; each step rule marks earlier steps completed and the current
step processing with overall `processing`. -/
def specFoldRule (e : ScrapeProgressEvent) (st : ArticleProgressState) :
    ArticleProgressState :=
  if e.status = EventStatus.skipped then
    { st with scrapeStatus := ArticleStepStatus.completed,
              extractStatus := ArticleStepStatus.completed,
              translateStatus := ArticleStepStatus.completed,
              overallStatus := OverallStatus.skipped }
  else if e.status = EventStatus.error then
    { st with overallStatus := OverallStatus.error, error := e.error }
  else if e.status = EventStatus.success then
    { st with scrapeStatus := ArticleStepStatus.completed,
              extractStatus := ArticleStepStatus.completed,
              translateStatus := ArticleStepStatus.completed,
              overallStatus := OverallStatus.completed }
  else
    match e.step with
    | some EventStep.scraped =>
        { st with scrapeStatus := ArticleStepStatus.completed,
                  overallStatus := OverallStatus.processing }
    | some EventStep.extracting =>
        { st with scrapeStatus := ArticleStepStatus.completed,
                  extractStatus := ArticleStepStatus.processing,
                  overallStatus := OverallStatus.processing }
    | some EventStep.extracted =>
        { st with scrapeStatus := ArticleStepStatus.completed,
                  extractStatus := ArticleStepStatus.completed,
                  overallStatus := OverallStatus.processing }
    | some EventStep.translating =>
        { st with scrapeStatus := ArticleStepStatus.completed,
                  extractStatus := ArticleStepStatus.completed,
                  translateStatus := ArticleStepStatus.processing,
                  overallStatus := OverallStatus.processing }
    | none => st

/-- The reference map-level fold of the spec's table: events without
`current_url` are job-lifecycle-only and skip per-article folding; events for
urls absent from the map fold nothing. -/
def specApplyEvent (m : StateMap) (e : ScrapeProgressEvent) : StateMap :=
  match e.current_url with
  | none => m
  | some u =>
    match m u with
    | none => m
    | some st => setState m u (specFoldRule e st)

/-- The initial all-pending state created for one selected article
(scrape-progress-modal.tsx lines 127-137). -/
def initialArticleState (a : ArticlePreview) : ArticleProgressState :=
  { url := a.url, title := a.title, source := a.source,
    scrapeStatus := ArticleStepStatus.pending,
    extractStatus := ArticleStepStatus.pending,
    translateStatus := ArticleStepStatus.pending,
    overallStatus := OverallStatus.pending,
    error := none }

/-- The initial state map built from `selectedArticles`
(scrape-progress-modal.tsx lines 124-142). -/
def initStates (arts : List ArticlePreview) : StateMap :=
  arts.foldl (fun m a => setState m a.url (initialArticleState a)) emptyStateMap

/-- The reconstructor's component state: the state map plus the mutable
`lastProcessedIndexRef` cursor (initially `-1`). -/
structure RecState where
  articleStates : StateMap
  lastProcessedIndex : Int

/-- The reconstructor's state when the modal opens. -/
def initRecState (arts : List ArticlePreview) : RecState :=
  { articleStates := initStates arts, lastProcessedIndex := -1 }

/-- One run of the modal's `useEffect` over the current `events` array
(scrape-progress-modal.tsx lines 157-233): return unchanged when there are
no events or no new events, otherwise fold exactly the events after the
cursor and move the cursor to the last index. -/
def runBatch (s : RecState) (events : List ScrapeProgressEvent) : RecState :=
  if events.length = 0 then s
  else
    let start : Int := s.lastProcessedIndex + 1
    if (events.length : Int) ≤ start then s
    else
      { articleStates := (events.drop start.toNat).foldl applyEvent s.articleStates,
        lastProcessedIndex := (events.length : Int) - 1 }

/-- Repeated effect runs over successive snapshots of the events array. -/
def runBatches (s : RecState) (bs : List (List ScrapeProgressEvent)) : RecState :=
  bs.foldl runBatch s

/-- One events snapshot grows into another by appending only. -/
def Grows (es es' : List ScrapeProgressEvent) : Prop :=
  ∃ t, es' = es ++ t

/-- The state of the `useSSE` hook relevant to event delivery: the
accumulated `events` array and whether `eventSource.close()` has run. -/
structure SSEState where
  events : List ScrapeProgressEvent
  closed : Bool

/-- A terminal event per `use-sse.ts` line 52: status `completed` or
`failed`. -/
def isTerminalEvent (e : ScrapeProgressEvent) : Bool :=
  match e.status with
  | EventStatus.completed => true
  | EventStatus.failed => true
  | _ => false

/-- The `onmessage` handler of `use-sse.ts` (lines 44-60): a closed
`EventSource` delivers nothing; otherwise the event is appended and a
terminal event closes the source. -/
def onMessage (s : SSEState) (e : ScrapeProgressEvent) : SSEState :=
  if s.closed then s
  else
    let s1 : SSEState := { events := s.events ++ [e], closed := false }
    if isTerminalEvent e then { s1 with closed := true } else s1

/-- The subscription state after a sequence of incoming messages. -/
def runSSE (msgs : List ScrapeProgressEvent) : SSEState :=
  msgs.foldl onMessage { events := [], closed := false }

/-- The component state of the auto-collect scrape page touched by
`handleAutoCollectPreview` (src/unnamed/part_004). -/
structure ScrapePageState where
  selectedSources : List String
  startMonth : String
  endMonth : String
  isPreviewLoading : Bool := false
  previewResult : Option AutoCollectPreviewResponse := none
  previewError : Option String := none
  selectedUrls : List String := []

/-- The validation message recorded when the start month exceeds the end
month. -/
def invertedRangeMessage : String := "시작년월이 종료년월보다 클 수 없습니다"

/-- The urls auto-selected after a successful preview: every non-duplicate
article of every source list (src/unnamed/part_004 lines 314-323). -/
def collectNewUrls (d : AutoCollectData) : List String :=
  ((tagSource "fcc" d.fcc ++ tagSource "ofcom" d.ofcom ++ tagSource "soumu" d.soumu).filter
    (fun a => !a.is_duplicate)).map (fun a => a.url)

/-- The `date_range` string sent to the API: a single month when the bounds
agree, otherwise `start~end` (src/unnamed/part_004 lines 304-306). -/
def buildDateRange (startMonth endMonth : String) : String :=
  if startMonth = endMonth then startMonth else startMonth ++ "~" ++ endMonth

/-- `handleAutoCollectPreview` of src/unnamed/part_004 (lines 288-329),
with the asynchronous `previewAutoCollect` call abstracted as an oracle from
the request to either a response or a thrown message.  Returns the new
component state and whether the API was invoked.  An empty source selection
returns immediately; an inverted month range records the validation error
and returns before any API call. -/
def handleAutoCollectPreview (s : ScrapePageState)
    (api : AutoCollectRequest → Except String AutoCollectPreviewResponse) :
    ScrapePageState × Bool :=
  if s.selectedSources.length = 0 then (s, false)
  else if s.endMonth < s.startMonth then
    ({ s with previewError := some invertedRangeMessage }, false)
  else
    let s1 := { s with isPreviewLoading := true, previewError := none,
                       previewResult := none, selectedUrls := [] }
    let req : AutoCollectRequest :=
      { sources := s.selectedSources,
        date_range := buildDateRange s.startMonth s.endMonth }
    match api req with
    | Except.ok result =>
        ({ s1 with previewResult := some result,
                   selectedUrls := collectNewUrls result.data,
                   isPreviewLoading := false }, true)
    | Except.error msg =>
        ({ s1 with previewError := some msg, isPreviewLoading := false }, true)

/-- Terminal per-article outcomes of a collection job (§4.5 of the spec). -/
inductive ArticleOutcome
  | success
  | skipped
  | error
  deriving DecidableEq, Repr

/-- Modelled from the spec: the Collection Job Runner is backend code not
present under src/ (the repository ships only the frontend).  Per §4.5, when
every article reaches a terminal per-article state the runner emits one
final `completed` event carrying aggregate `success_count`, `skipped_count`
and `error_count` over the job's articles, with `total` the number of
articles submitted. -/
def jobTerminalEvent (outcomes : List ArticleOutcome) : ScrapeProgressEvent :=
  { processed := outcomes.length,
    total := outcomes.length,
    status := EventStatus.completed,
    success_count := some (outcomes.countP (fun o => o = ArticleOutcome.success)),
    skipped_count := some (outcomes.countP (fun o => o = ArticleOutcome.skipped)),
    error_count := some (outcomes.countP (fun o => o = ArticleOutcome.error)) }

/-- A pointwise property of every article state stored in a state map. -/
def StateInv (P : ArticleProgressState → Prop) (m : StateMap) : Prop :=
  ∀ u st, m u = some st → P st

/-- The reconstructor invariant: the cursor points at the last folded event
and the state map is the left fold of the single-event transition over the
whole delivered sequence. -/
def RecInv (arts : List ArticlePreview) (es : List ScrapeProgressEvent)
    (s : RecState) : Prop :=
  s.lastProcessedIndex = (es.length : Int) - 1 ∧
  s.articleStates = es.foldl applyEvent (initStates arts)

/-- The subscription invariant: while the source is open no delivered event
is terminal; once closed, the delivered sequence is some non-terminal
events followed by exactly one terminal event. -/
def SSEInv (s : SSEState) : Prop :=
  (s.closed = false ∧ ∀ e ∈ s.events, isTerminalEvent e = false) ∨
  (s.closed = true ∧ ∃ pre t, s.events = pre ++ [t] ∧ isTerminalEvent t = true ∧
    ∀ e ∈ pre, isTerminalEvent e = false)

/-- Sample article used by witnesses. -/
def sampleArticleA : ArticlePreview :=
  { title := "FCC adopts new rules", url := "u1", source := "fcc" }

/-- Second sample article used by witnesses. -/
def sampleArticleB : ArticlePreview :=
  { title := "Ofcom statement", url := "u2", source := "ofcom" }

/-- Sample success event for `u1`. -/
def sampleSuccessEvent : ScrapeProgressEvent :=
  { status := EventStatus.success, current_url := some "u1", processed := 1, total := 2 }

/-- Sample duplicate-skip event for `u1`. -/
def sampleSkippedEvent : ScrapeProgressEvent :=
  { status := EventStatus.skipped, current_url := some "u1", skip_reason := some "duplicate" }

/-- Sample step event for `u1`. -/
def sampleScrapedEvent : ScrapeProgressEvent :=
  { status := EventStatus.processing, current_url := some "u1", step := some EventStep.scraped }

/-- Sample event whose url belongs to no selected article. -/
def sampleUnknownEvent : ScrapeProgressEvent :=
  { status := EventStatus.error, current_url := some "zzz", error := some "boom" }

/-- Sample terminal job event. -/
def sampleCompletedEvent : ScrapeProgressEvent :=
  { status := EventStatus.completed, processed := 1, total := 1,
    success_count := some 1, skipped_count := some 0, error_count := some 0 }

theorem updateArticleState_eq_specFoldRule (e : ScrapeProgressEvent)
    (st : ArticleProgressState) : updateArticleState e st = specFoldRule e st := by
  rcases hst : e.step with _ | stp
  · cases hs : e.status <;>
      simp [updateArticleState, specFoldRule, hs, hst]
  · cases stp <;> cases hs : e.status <;>
      simp [updateArticleState, specFoldRule, hs, hst]

/-- C2: folding a single ProgressEvent into the per-article state map equals
the reference transition of the spec's folding-rule table, on any state map
that has no entry for the empty url (selected-article urls are never
empty). -/
theorem applyEvent_matches_spec_rules (e : ScrapeProgressEvent) (m : StateMap)
    (h : m "" = none) : applyEvent m e = specApplyEvent m e := by
  rcases hc : e.current_url with _ | u
  · simp [applyEvent, specApplyEvent, hc]
  · by_cases hu : u = ""
    · subst hu
      simp [applyEvent, specApplyEvent, hc, h]
    · cases hm : m u with
      | none => simp [applyEvent, specApplyEvent, hc, hu, hm]
      | some st =>
        simp [applyEvent, specApplyEvent, hc, hu, hm,
          updateArticleState_eq_specFoldRule]

theorem applyEvent_matches_spec_rules_witness :
    applyEvent (initStates [sampleArticleA]) sampleSuccessEvent =
      specApplyEvent (initStates [sampleArticleA]) sampleSuccessEvent :=
  applyEvent_matches_spec_rules sampleSuccessEvent (initStates [sampleArticleA])
    (by decide)

/-- C6: folding one event carrying `current_url = u` changes at most the
state-map entry for `u`; every other url keeps its stored state. -/
theorem applyEvent_frame (m : StateMap) (e : ScrapeProgressEvent) (u v : String)
    (hc : e.current_url = some u) (hv : v ≠ u) : applyEvent m e v = m v := by
  by_cases hu : u = ""
  · simp [applyEvent, hc, hu]
  · cases hm : m u with
    | none => simp [applyEvent, hc, hu, hm]
    | some st => simp [applyEvent, hc, hu, hm, setState, hv]

theorem applyEvent_frame_witness :
    applyEvent (initStates [sampleArticleA, sampleArticleB]) sampleUnknownEvent "u2" =
      initStates [sampleArticleA, sampleArticleB] "u2" :=
  applyEvent_frame (initStates [sampleArticleA, sampleArticleB]) sampleUnknownEvent
    "zzz" "u2" rfl (by decide)

theorem stateInv_applyEvent (P : ArticleProgressState → Prop)
    (hP : ∀ e st, P st → P (updateArticleState e st))
    (m : StateMap) (e : ScrapeProgressEvent) (h : StateInv P m) :
    StateInv P (applyEvent m e) := by
  intro u st hst
  rcases hc : e.current_url with _ | w
  · rw [applyEvent, hc] at hst
    exact h u st hst
  · by_cases hw : w = ""
    · rw [applyEvent, hc] at hst
      simp only [hw, if_pos rfl] at hst
      exact h u st hst
    · rcases hm : m w with _ | ex
      · rw [applyEvent, hc] at hst
        simp only [hw, if_neg hw, hm] at hst
        exact h u st hst
      · rw [applyEvent, hc] at hst
        simp only [if_neg hw, hm, setState] at hst
        by_cases huw : u = w
        · rw [if_pos huw] at hst
          cases hst
          exact hP e ex (h w ex hm)
        · rw [if_neg huw] at hst
          exact h u st hst

theorem stateInv_foldl (P : ArticleProgressState → Prop)
    (hP : ∀ e st, P st → P (updateArticleState e st))
    (es : List ScrapeProgressEvent) (m : StateMap) (h : StateInv P m) :
    StateInv P (es.foldl applyEvent m) := by
  induction es generalizing m with
  | nil => exact h
  | cons e es ih => exact ih (applyEvent m e) (stateInv_applyEvent P hP m e h)

theorem stateInv_initStates (P : ArticleProgressState → Prop)
    (hinit : ∀ a, P (initialArticleState a)) (arts : List ArticlePreview) :
    StateInv P (initStates arts) := by
  unfold initStates
  have key : ∀ (l : List ArticlePreview) (m : StateMap), StateInv P m →
      StateInv P (l.foldl (fun m a => setState m a.url (initialArticleState a)) m) := by
    intro l
    induction l with
    | nil => intro m hm; exact hm
    | cons a l ih =>
      intro m hm
      refine ih _ ?_
      intro u st hst
      simp only [setState] at hst
      by_cases hu : u = a.url
      · rw [if_pos hu] at hst
        cases hst
        exact hinit a
      · rw [if_neg hu] at hst
        exact hm u st hst
  exact key arts emptyStateMap (fun u st hst => by cases hst)

theorem skip_inv_update (e : ScrapeProgressEvent) (st : ArticleProgressState)
    (h : st.overallStatus = OverallStatus.skipped →
      st.scrapeStatus = ArticleStepStatus.completed ∧
      st.extractStatus = ArticleStepStatus.completed ∧
      st.translateStatus = ArticleStepStatus.completed) :
    (updateArticleState e st).overallStatus = OverallStatus.skipped →
      (updateArticleState e st).scrapeStatus = ArticleStepStatus.completed ∧
      (updateArticleState e st).extractStatus = ArticleStepStatus.completed ∧
      (updateArticleState e st).translateStatus = ArticleStepStatus.completed := by
  rcases hst : e.step with _ | stp
  · cases hs : e.status <;> simp [updateArticleState, hs, hst] <;> exact h
  · cases stp <;> cases hs : e.status <;> simp [updateArticleState, hs, hst]

theorem completed_inv_update (e : ScrapeProgressEvent) (st : ArticleProgressState)
    (h : st.overallStatus = OverallStatus.completed →
      st.scrapeStatus = ArticleStepStatus.completed ∧
      st.extractStatus = ArticleStepStatus.completed ∧
      st.translateStatus = ArticleStepStatus.completed) :
    (updateArticleState e st).overallStatus = OverallStatus.completed →
      (updateArticleState e st).scrapeStatus = ArticleStepStatus.completed ∧
      (updateArticleState e st).extractStatus = ArticleStepStatus.completed ∧
      (updateArticleState e st).translateStatus = ArticleStepStatus.completed := by
  rcases hst : e.step with _ | stp
  · cases hs : e.status <;> simp [updateArticleState, hs, hst] <;> exact h
  · cases stp <;> cases hs : e.status <;> simp [updateArticleState, hs, hst]

/-- C3: after folding any event sequence in arrival order, every article
state whose overall status is `skipped` has all three step statuses
`completed`. -/
theorem skipped_forces_steps_completed (arts : List ArticlePreview)
    (es : List ScrapeProgressEvent) (u : String) (st : ArticleProgressState)
    (h : (es.foldl applyEvent (initStates arts)) u = some st)
    (hs : st.overallStatus = OverallStatus.skipped) :
    st.scrapeStatus = ArticleStepStatus.completed ∧
    st.extractStatus = ArticleStepStatus.completed ∧
    st.translateStatus = ArticleStepStatus.completed := by
  refine stateInv_foldl
    (fun st => st.overallStatus = OverallStatus.skipped →
      st.scrapeStatus = ArticleStepStatus.completed ∧
      st.extractStatus = ArticleStepStatus.completed ∧
      st.translateStatus = ArticleStepStatus.completed)
    skip_inv_update es (initStates arts) ?_ u st h hs
  refine stateInv_initStates _ ?_ arts
  intro a hov
  simp [initialArticleState] at hov

theorem skipped_forces_steps_completed_witness :
    ([sampleSkippedEvent].foldl applyEvent (initStates [sampleArticleA])) "u1" =
      some { url := "u1", title := sampleArticleA.title, source := "fcc",
             scrapeStatus := ArticleStepStatus.completed,
             extractStatus := ArticleStepStatus.completed,
             translateStatus := ArticleStepStatus.completed,
             overallStatus := OverallStatus.skipped, error := none } ∧
    (ArticleStepStatus.completed = ArticleStepStatus.completed ∧
     ArticleStepStatus.completed = ArticleStepStatus.completed ∧
     ArticleStepStatus.completed = ArticleStepStatus.completed) :=
  ⟨by decide,
   skipped_forces_steps_completed [sampleArticleA] [sampleSkippedEvent] "u1"
     { url := "u1", title := sampleArticleA.title, source := "fcc",
       scrapeStatus := ArticleStepStatus.completed,
       extractStatus := ArticleStepStatus.completed,
       translateStatus := ArticleStepStatus.completed,
       overallStatus := OverallStatus.skipped, error := none }
     (by decide) (by decide)⟩

/-- C4: after folding any event sequence in arrival order, every article
state whose overall status is `completed` has all three step statuses
`completed`. -/
theorem completed_forces_steps_completed (arts : List ArticlePreview)
    (es : List ScrapeProgressEvent) (u : String) (st : ArticleProgressState)
    (h : (es.foldl applyEvent (initStates arts)) u = some st)
    (hs : st.overallStatus = OverallStatus.completed) :
    st.scrapeStatus = ArticleStepStatus.completed ∧
    st.extractStatus = ArticleStepStatus.completed ∧
    st.translateStatus = ArticleStepStatus.completed := by
  refine stateInv_foldl
    (fun st => st.overallStatus = OverallStatus.completed →
      st.scrapeStatus = ArticleStepStatus.completed ∧
      st.extractStatus = ArticleStepStatus.completed ∧
      st.translateStatus = ArticleStepStatus.completed)
    completed_inv_update es (initStates arts) ?_ u st h hs
  refine stateInv_initStates _ ?_ arts
  intro a hov
  simp [initialArticleState] at hov

theorem completed_forces_steps_completed_witness :
    ([sampleSuccessEvent].foldl applyEvent (initStates [sampleArticleA])) "u1" =
      some { url := "u1", title := sampleArticleA.title, source := "fcc",
             scrapeStatus := ArticleStepStatus.completed,
             extractStatus := ArticleStepStatus.completed,
             translateStatus := ArticleStepStatus.completed,
             overallStatus := OverallStatus.completed, error := none } ∧
    (ArticleStepStatus.completed = ArticleStepStatus.completed ∧
     ArticleStepStatus.completed = ArticleStepStatus.completed ∧
     ArticleStepStatus.completed = ArticleStepStatus.completed) :=
  ⟨by decide,
   completed_forces_steps_completed [sampleArticleA] [sampleSuccessEvent] "u1"
     { url := "u1", title := sampleArticleA.title, source := "fcc",
       scrapeStatus := ArticleStepStatus.completed,
       extractStatus := ArticleStepStatus.completed,
       translateStatus := ArticleStepStatus.completed,
       overallStatus := OverallStatus.completed, error := none }
     (by decide) (by decide)⟩

theorem applyEvent_isSome (m : StateMap) (e : ScrapeProgressEvent) (v : String) :
    ((applyEvent m e) v).isSome = (m v).isSome := by
  rcases hc : e.current_url with _ | w
  · rw [applyEvent, hc]
  · simp only [applyEvent, hc]
    by_cases hw : w = ""
    · rw [if_pos hw]
    · rw [if_neg hw]
      rcases hm : m w with _ | ex
      · simp only [hm]
      · simp only [hm, setState]
        by_cases hvw : v = w
        · rw [if_pos hvw, hvw, hm]
          rfl
        · rw [if_neg hvw]

theorem foldl_applyEvent_isSome (es : List ScrapeProgressEvent) (m : StateMap)
    (v : String) : ((es.foldl applyEvent m) v).isSome = (m v).isSome := by
  induction es generalizing m with
  | nil => rfl
  | cons e es ih => rw [List.foldl_cons, ih, applyEvent_isSome]

theorem initStates_isSome (arts : List ArticlePreview) (v : String) :
    ((initStates arts) v).isSome = true ↔ v ∈ arts.map (fun a => a.url) := by
  unfold initStates
  have key : ∀ (l : List ArticlePreview) (m : StateMap),
      ((l.foldl (fun m a => setState m a.url (initialArticleState a)) m) v).isSome = true ↔
        v ∈ l.map (fun a => a.url) ∨ (m v).isSome = true := by
    intro l
    induction l with
    | nil => intro m; simp
    | cons a l ih =>
      intro m
      rw [List.foldl_cons, ih]
      simp only [List.map_cons, List.mem_cons]
      constructor
      · rintro (hv | hv)
        · exact Or.inl (Or.inr hv)
        · simp only [setState] at hv
          by_cases hva : v = a.url
          · exact Or.inl (Or.inl hva)
          · rw [if_neg hva] at hv
            exact Or.inr hv
      · rintro ((hv | hv) | hv)
        · refine Or.inr ?_
          simp [setState, hv]
        · exact Or.inl hv
        · refine Or.inr ?_
          simp only [setState]
          by_cases hva : v = a.url
          · rw [if_pos hva]; rfl
          · rw [if_neg hva]; exact hv
  rw [key arts emptyStateMap]
  simp [emptyStateMap]

/-- C10: the key set of the per-article state map stays exactly the urls of
the initially selected articles under any folded event sequence, and an
event whose url is not a key leaves the map unchanged. -/
theorem state_map_keys_invariant (arts : List ArticlePreview)
    (es : List ScrapeProgressEvent) :
    (∀ v, ((es.foldl applyEvent (initStates arts)) v).isSome = true ↔
        v ∈ arts.map (fun a => a.url)) ∧
    (∀ (m : StateMap) (e : ScrapeProgressEvent) (u : String),
        e.current_url = some u → m u = none → applyEvent m e = m) := by
  constructor
  · intro v
    rw [foldl_applyEvent_isSome]
    exact initStates_isSome arts v
  · intro m e u hc hm
    simp only [applyEvent, hc]
    by_cases hu : u = ""
    · rw [if_pos hu]
    · rw [if_neg hu]
      simp only [hm]

theorem state_map_keys_invariant_witness :
    ((([sampleSkippedEvent].foldl applyEvent (initStates [sampleArticleA])) "u1").isSome
      = true) ∧
    applyEvent (initStates [sampleArticleA]) sampleUnknownEvent =
      initStates [sampleArticleA] :=
  ⟨((state_map_keys_invariant [sampleArticleA] [sampleSkippedEvent]).1 "u1").mpr
      (by decide),
   (state_map_keys_invariant [sampleArticleA] []).2 (initStates [sampleArticleA])
      sampleUnknownEvent "zzz" rfl (by decide)⟩

theorem runBatch_inv (arts : List ArticlePreview)
    (es es' : List ScrapeProgressEvent) (s : RecState)
    (h : RecInv arts es s) (hg : Grows es es') : RecInv arts es' (runBatch s es') := by
  obtain ⟨t, rfl⟩ := hg
  obtain ⟨h1, h2⟩ := h
  rcases ht : t with _ | ⟨e, t'⟩
  · rw [List.append_nil]
    rw [runBatch]
    by_cases hz : es.length = 0
    · rw [if_pos hz]
      exact ⟨h1, h2⟩
    · rw [if_neg hz]
      have : (es.length : Int) ≤ s.lastProcessedIndex + 1 := by
        rw [h1]; omega
      rw [if_pos this]
      exact ⟨h1, h2⟩
  · rw [runBatch]
    have hlen : (es ++ e :: t').length = es.length + t'.length + 1 := by
      simp [List.length_append]; omega
    have hz : ¬((es ++ e :: t').length = 0) := by omega
    rw [if_neg hz]
    have hlt : ¬(((es ++ e :: t').length : Int) ≤ s.lastProcessedIndex + 1) := by
      rw [h1, hlen]; push_cast; omega
    rw [if_neg hlt]
    have hstart : (s.lastProcessedIndex + 1).toNat = es.length := by
      rw [h1]; omega
    constructor
    · simp
    · rw [hstart, List.drop_left, h2, ← List.foldl_append]

theorem runBatches_inv (arts : List ArticlePreview)
    (bs : List (List ScrapeProgressEvent)) (es : List ScrapeProgressEvent)
    (s : RecState) (h : RecInv arts es s) (hc : List.Chain Grows es bs) :
    RecInv arts ((es :: bs).getLast (List.cons_ne_nil _ _)) (runBatches s bs) := by
  induction bs generalizing es s with
  | nil => exact h
  | cons b bs ih =>
    rcases List.chain_cons.mp hc with ⟨hgb, hcb⟩
    have hstep := runBatch_inv arts es b s h hgb
    have := ih b (runBatch s b) hstep hcb
    rw [List.getLast_cons (List.cons_ne_nil _ _)]
    exact this

/-- C5: over any strictly-growing chain of events snapshots, each effect run
folds exactly the new events: after the final batch the cursor equals the
sequence length minus one and the state map is the left fold of the
single-event transition over the whole sequence from the initial all-pending
states. -/
theorem reconstructor_folds_each_event_exactly_once (arts : List ArticlePreview)
    (bs : List (List ScrapeProgressEvent)) (hne : bs ≠ [])
    (hc : List.Chain Grows [] bs) :
    (runBatches (initRecState arts) bs).lastProcessedIndex =
      ((bs.getLast hne).length : Int) - 1 ∧
    (runBatches (initRecState arts) bs).articleStates =
      (bs.getLast hne).foldl applyEvent (initStates arts) := by
  have h0 : RecInv arts [] (initRecState arts) := by
    constructor
    · rfl
    · rfl
  have := runBatches_inv arts bs [] (initRecState arts) h0 hc
  rwa [List.getLast_cons hne] at this

theorem reconstructor_folds_each_event_exactly_once_witness :
    (runBatches (initRecState [sampleArticleA])
        [[sampleScrapedEvent], [sampleScrapedEvent, sampleSuccessEvent]]).lastProcessedIndex =
      (([sampleScrapedEvent, sampleSuccessEvent].length : Int)) - 1 ∧
    (runBatches (initRecState [sampleArticleA])
        [[sampleScrapedEvent], [sampleScrapedEvent, sampleSuccessEvent]]).articleStates =
      [sampleScrapedEvent, sampleSuccessEvent].foldl applyEvent
        (initStates [sampleArticleA]) :=
  reconstructor_folds_each_event_exactly_once [sampleArticleA]
    [[sampleScrapedEvent], [sampleScrapedEvent, sampleSuccessEvent]]
    (by simp)
    (List.Chain.cons ⟨[sampleScrapedEvent], rfl⟩
      (List.Chain.cons ⟨[sampleSuccessEvent], rfl⟩ List.Chain.nil))

theorem onMessage_inv (s : SSEState) (e : ScrapeProgressEvent) (h : SSEInv s) :
    SSEInv (onMessage s e) := by
  rcases h with ⟨hop, hall⟩ | ⟨hcl, pre, t, hev, hterm, hpre⟩
  · rw [onMessage, hop]
    simp only [Bool.false_eq_true, if_false]
    by_cases hterm : isTerminalEvent e
    · rw [if_pos hterm]
      exact Or.inr ⟨rfl, s.events, e, rfl, hterm, hall⟩
    · rw [if_neg hterm]
      refine Or.inl ⟨rfl, ?_⟩
      intro x hx
      rcases List.mem_append.mp hx with hx | hx
      · exact hall x hx
      · rcases List.mem_singleton.mp hx with rfl
        simpa using hterm
  · rw [onMessage, hcl]
    simp only [if_true]
    exact Or.inr ⟨hcl, pre, t, hev, hterm, hpre⟩

theorem runSSE_inv (msgs : List ScrapeProgressEvent) : SSEInv (runSSE msgs) := by
  rw [runSSE]
  have key : ∀ (l : List ScrapeProgressEvent) (s : SSEState),
      SSEInv s → SSEInv (l.foldl onMessage s) := by
    intro l
    induction l with
    | nil => intro s hs; exact hs
    | cons m ms ih =>
      intro s hs
      exact ih (onMessage s m) (onMessage_inv s m hs)
  refine key msgs _ (Or.inl ⟨rfl, ?_⟩)
  intro x hx
  cases hx

/-- C7: once a `completed` or `failed` event has been processed by the
`useSSE` subscription the source is closed and no later event is ever
appended: the delivered events array never holds an event after a terminal
event, and holding a terminal event implies the source is closed. -/
theorem no_event_after_terminal (msgs : List ScrapeProgressEvent) :
    (∀ pre suf e, (runSSE msgs).events = pre ++ e :: suf →
        isTerminalEvent e = true → suf = []) ∧
    (∀ e ∈ (runSSE msgs).events, isTerminalEvent e = true →
        (runSSE msgs).closed = true) := by
  constructor
  · intro pre suf e hdec hterm
    rcases runSSE_inv msgs with ⟨_, hall⟩ | ⟨_, pre0, t, hev, _, hpre0⟩
    · exfalso
      have he : e ∈ (runSSE msgs).events := by
        rw [hdec]
        exact List.mem_append.mpr (Or.inr (List.mem_cons_self _ _))
      have := hall e he
      rw [hterm] at this
      cases this
    · rcases List.eq_nil_or_concat suf with hsuf | ⟨suf', z, rfl⟩
      · exact hsuf
      · exfalso
        rw [hev] at hdec
        have hre : (pre ++ e :: suf') ++ [z] = pre0 ++ [t] := by
          rw [hdec]
          simp [List.concat_eq_append]
        have hinj := List.append_inj' hre rfl
        have he : e ∈ pre0 := by
          rw [← hinj.1]
          exact List.mem_append.mpr (Or.inr (List.mem_cons_self _ _))
        have := hpre0 e he
        rw [hterm] at this
        cases this
  · intro e he hterm
    rcases runSSE_inv msgs with ⟨_, hall⟩ | ⟨hcl, _⟩
    · exfalso
      have := hall e he
      rw [hterm] at this
      cases this
    · exact hcl

theorem no_event_after_terminal_witness :
    ([] : List ScrapeProgressEvent) = [] ∧
    (runSSE [sampleScrapedEvent, sampleCompletedEvent]).closed = true :=
  ⟨(no_event_after_terminal [sampleScrapedEvent, sampleCompletedEvent]).1
      [sampleScrapedEvent] [] sampleCompletedEvent (by decide) (by decide),
   (no_event_after_terminal [sampleScrapedEvent, sampleCompletedEvent]).2
      sampleCompletedEvent (by decide) (by decide)⟩

/-- C8: a preview request whose start month exceeds its end month (in the
string order the handler uses) fails synchronously: the validation message
is recorded, the API oracle is never invoked, and the preview result is left
exactly as it was. -/
theorem preview_rejects_inverted_range (s : ScrapePageState)
    (api : AutoCollectRequest → Except String AutoCollectPreviewResponse)
    (hsrc : s.selectedSources ≠ []) (hinv : s.endMonth < s.startMonth) :
    (handleAutoCollectPreview s api).2 = false ∧
    (handleAutoCollectPreview s api).1.previewError = some invertedRangeMessage ∧
    (handleAutoCollectPreview s api).1.previewResult = s.previewResult := by
  have hlen : ¬(s.selectedSources.length = 0) := by
    intro h
    exact hsrc (List.length_eq_zero.mp h)
  rw [handleAutoCollectPreview, if_neg hlen, if_pos hinv]
  exact ⟨rfl, rfl, rfl⟩

theorem preview_rejects_inverted_range_witness :
    (handleAutoCollectPreview
        { selectedSources := ["fcc"], startMonth := "2025-03", endMonth := "2025-01" }
        (fun _ => Except.error "unreachable")).2 = false ∧
    (handleAutoCollectPreview
        { selectedSources := ["fcc"], startMonth := "2025-03", endMonth := "2025-01" }
        (fun _ => Except.error "unreachable")).1.previewError =
      some invertedRangeMessage ∧
    (handleAutoCollectPreview
        { selectedSources := ["fcc"], startMonth := "2025-03", endMonth := "2025-01" }
        (fun _ => Except.error "unreachable")).1.previewResult =
      ({ selectedSources := ["fcc"], startMonth := "2025-03",
         endMonth := "2025-01" } : ScrapePageState).previewResult :=
  preview_rejects_inverted_range
    { selectedSources := ["fcc"], startMonth := "2025-03", endMonth := "2025-01" }
    (fun _ => Except.error "unreachable") (by decide)
    (by rw [String.lt_iff_toList_lt]; decide)

/-- C9: the terminal `completed` event of a collection job carries counters
with `success_count + skipped_count + error_count = total`, the number of
articles submitted to the job. -/
theorem terminal_counts_sum_to_total (outcomes : List ArticleOutcome) :
    (jobTerminalEvent outcomes).success_count.getD 0 +
      (jobTerminalEvent outcomes).skipped_count.getD 0 +
      (jobTerminalEvent outcomes).error_count.getD 0 =
    (jobTerminalEvent outcomes).total := by
  simp only [jobTerminalEvent, Option.getD_some]
  induction outcomes with
  | nil => rfl
  | cons o rest ih =>
    cases o <;> simp [List.countP_cons, List.length_cons] <;> omega

theorem cmp_lt_mayPrecede (a b : CombinedArticle) (h : cmpArticles a b < 0) :
    mayPrecede a b := by
  unfold cmpArticles localeCompare at h
  by_cases h1 : a.is_duplicate ≠ b.is_duplicate
  · rw [if_pos h1] at h
    cases h2 : a.is_duplicate
    · have hb : b.is_duplicate = true := by
        cases hbv : b.is_duplicate
        · exact absurd (h2.trans hbv.symm) h1
        · rfl
      simp [mayPrecede, h2, hb]
    · rw [if_pos h2] at h
      exact absurd h (by decide)
  · rw [if_neg h1] at h
    have hd := not_not.mp h1
    cases h3 : truthyStr a.published_date
    · rw [if_pos (by simp [h3])] at h
      exact absurd h (by decide)
    · rw [if_neg (by simp [h3])] at h
      cases h4 : truthyStr b.published_date
      · simp [mayPrecede, hd, h3, h4]
      · rw [if_neg (by simp [h4])] at h
        by_cases h5 : b.published_date.getD "" < a.published_date.getD ""
        · simp only [mayPrecede, hd, h3, h4]
          exact ⟨fun hb => hb, fun _ => ⟨fun hfa => hfa, fun _ _ => lt_asymm h5⟩⟩
        · rw [if_neg h5] at h
          by_cases h6 : b.published_date.getD "" = a.published_date.getD ""
          · rw [if_pos h6] at h
            exact absurd h (by decide)
          · rw [if_neg h6] at h
            exact absurd h (by decide)

theorem cmp_not_lt_mayPrecede (a b : CombinedArticle) (h : ¬ cmpArticles a b < 0) :
    mayPrecede b a := by
  unfold cmpArticles localeCompare at h
  by_cases h1 : a.is_duplicate ≠ b.is_duplicate
  · rw [if_pos h1] at h
    cases h2 : a.is_duplicate
    · rw [if_neg (by simp [h2])] at h
      exact absurd (by decide) h
    · have hb : b.is_duplicate = false := by
        cases hbv : b.is_duplicate
        · rfl
        · exact absurd (h2.trans hbv.symm) h1
      simp [mayPrecede, h2, hb]
  · rw [if_neg h1] at h
    have hd := not_not.mp h1
    cases h3 : truthyStr a.published_date
    · simp [mayPrecede, hd, h3]
    · rw [if_neg (by simp [h3])] at h
      cases h4 : truthyStr b.published_date
      · rw [if_pos (by simp [h4])] at h
        exact absurd (by decide) h
      · rw [if_neg (by simp [h4])] at h
        by_cases h5 : b.published_date.getD "" < a.published_date.getD ""
        · rw [if_pos h5] at h
          exact absurd (by decide) h
        · simp only [mayPrecede, hd, h3, h4]
          exact ⟨fun hb => hb, fun _ => ⟨fun hfb => hfb, fun _ _ => h5⟩⟩

theorem mayPrecede_trans (a b c : CombinedArticle) (hab : mayPrecede a b)
    (hbc : mayPrecede b c) : mayPrecede a c := by
  obtain ⟨hab1, hab2⟩ := hab
  obtain ⟨hbc1, hbc2⟩ := hbc
  refine ⟨fun ha => hbc1 (hab1 ha), ?_⟩
  intro hac
  have hb : a.is_duplicate = b.is_duplicate := by
    cases ha : a.is_duplicate
    · cases hbv : b.is_duplicate
      · rfl
      · have hc := hbc1 hbv
        rw [← hac, ha] at hc
        cases hc
    · rw [hab1 ha]
  have hbceq : b.is_duplicate = c.is_duplicate := hb.symm.trans hac
  obtain ⟨habd1, habd2⟩ := hab2 hb
  obtain ⟨hbcd1, hbcd2⟩ := hbc2 hbceq
  constructor
  · exact fun hfa => hbcd1 (habd1 hfa)
  · intro hta htc
    cases htbv : truthyStr b.published_date
    · have := hbcd1 htbv
      rw [htc] at this
      cases this
    · have h1 := habd2 hta htbv
      have h2 := hbcd2 htbv htc
      intro hlt
      exact absurd hlt (not_lt.mpr (le_trans (not_lt.mp h2) (not_lt.mp h1)))

theorem mem_insertArticle (z x : CombinedArticle) (l : List CombinedArticle) :
    z ∈ insertArticle x l ↔ z = x ∨ z ∈ l := by
  induction l with
  | nil => simp [insertArticle]
  | cons y ys ih =>
    by_cases h : cmpArticles x y < 0
    · simp [insertArticle, h]
    · simp [insertArticle, h, ih]
      tauto

theorem perm_insertArticle (x : CombinedArticle) (l : List CombinedArticle) :
    (insertArticle x l).Perm (x :: l) := by
  induction l with
  | nil => exact List.Perm.refl _
  | cons y ys ih =>
    rw [insertArticle]
    split_ifs with h
    · exact List.Perm.refl _
    · exact (ih.cons y).trans (List.Perm.swap x y ys)

theorem pairwise_insertArticle (x : CombinedArticle) (l : List CombinedArticle)
    (h : l.Pairwise mayPrecede) : (insertArticle x l).Pairwise mayPrecede := by
  induction l with
  | nil => simp [insertArticle]
  | cons y ys ih =>
    rcases List.pairwise_cons.mp h with ⟨hy, hys⟩
    rw [insertArticle]
    split_ifs with hcmp
    · refine List.pairwise_cons.mpr ⟨?_, h⟩
      intro z hz
      rcases List.mem_cons.mp hz with rfl | hz'
      · exact cmp_lt_mayPrecede x z hcmp
      · exact mayPrecede_trans x y z (cmp_lt_mayPrecede x y hcmp) (hy z hz')
    · refine List.pairwise_cons.mpr ⟨?_, ih hys⟩
      intro z hz
      rcases (mem_insertArticle z x ys).mp hz with rfl | hz'
      · exact cmp_not_lt_mayPrecede z y hcmp
      · exact hy z hz'

theorem perm_sortArticles (l : List CombinedArticle) : (sortArticles l).Perm l := by
  induction l with
  | nil => exact List.Perm.refl _
  | cons a l ih =>
    have : sortArticles (a :: l) = insertArticle a (sortArticles l) := rfl
    rw [this]
    exact (perm_insertArticle a (sortArticles l)).trans (ih.cons a)

theorem pairwise_sortArticles (l : List CombinedArticle) :
    (sortArticles l).Pairwise mayPrecede := by
  induction l with
  | nil => simp [sortArticles]
  | cons a l ih =>
    have : sortArticles (a :: l) = insertArticle a (sortArticles l) := rfl
    rw [this]
    exact pairwise_insertArticle a (sortArticles l) ih

/-- C1: the combined list is a permutation of the source-tagged inputs in
which every non-duplicate precedes every duplicate, and within each
partition articles are ordered by `published_date` non-increasing with
articles lacking a date placed after all dated articles of the same
partition. -/
theorem combineArticles_perm_and_ordered (d : AutoCollectData) :
    (combineArticles d).Perm (combinedInput d) ∧
    (combineArticles d).Pairwise mayPrecede :=
  ⟨perm_sortArticles (combinedInput d), pairwise_sortArticles (combinedInput d)⟩

end RadioScrap
